import Mathlib

/-!
Verification of the index-scheduling sampler of `ppdet/data/samplers.py`
(PaddleDetection).  The Python class `Sampler` is shallowly embedded:
its immutable constructor arguments become `SamplerConfig`, the lazily
created attributes `num_batches` / `bucket_flags` / `bucket_sizes` /
`pad_lengths` become an optional `Schedule`, and the mutable attributes
`epoch`, `_shard`, `_step` become `SamplerState`.  The methods `setup`,
`reset`, `__iter__`, `__next__` and `__len__` become the functions
`Sampler.setup`, `Sampler.reset`, `Sampler.iterOp`, `Sampler.next` and
`Sampler.lenOp`.

`numpy.random.RandomState(seed).permutation` is modelled by an abstract
oracle `Nat → Nat → Nat → List Nat`: for a seed, a call index (each call
on the same `RandomState` consumes its stream, so successive calls inside
one `reset` are distinguished by a call counter) and an array length `n`
it returns the list of source positions.  The process-global generator
`numpy.random.permutation` (used when `sync_seed_schedule` is false) is
modelled by an entropy argument passed to each `reset` call from outside.
A family of position lists is a faithful model of numpy only when each
list is a permutation of `range n`; that is the predicate `ValidFam`.
-/

/-- `math.ceil(a / w)` for natural `a` and positive `w`. -/
def ceilDiv (a w : Nat) : Nat := (a + w - 1) / w

/-- Apply a numpy-style position permutation to a list:
`numpy.random.RandomState(s).permutation(x)` rearranges the first axis of
`x` by positions that depend only on the seed and `len(x)`. -/
def applyPerm (p : List Nat) (x : List α) (d : α) : List α :=
  p.map (fun i => x.getD i d)

/-- A family of position lists (indexed by call number and length) where
every member is a genuine permutation of `range n` — the contract that
numpy's `permutation` satisfies. -/
def ValidFam (f : Nat → Nat → List Nat) : Prop :=
  ∀ c n, (f c n).Perm (List.range n)

/-- A seeded oracle whose every seed yields a valid family. -/
def ValidOracle (f : Nat → Nat → Nat → List Nat) : Prop :=
  ∀ s, ValidFam (f s)

/-- `n` consecutive chunks of width `k` taken from the front of `l`
(`numpy.reshape(-1, k)` row extraction). -/
def chunkGo (k : Nat) : Nat → List α → List (List α)
  | 0, _ => []
  | n + 1, l => l.take k :: chunkGo k n (l.drop k)

/-- `numpy.array(l).reshape(-1, k)` as a list of rows (defined on the
exact-multiple inputs on which numpy does not raise). -/
def chunksOf (k : Nat) (l : List α) : List (List α) :=
  chunkGo k (ceilDiv l.length k) l

/-- `numpy.digitize(x, bins)` for monotonically increasing `bins`
(`right=False`): the insertion index located by the search for the first
bin strictly greater than `x`. -/
def npDigitize (bins : List ℚ) (x : ℚ) : Nat :=
  match bins with
  | [] => 0
  | b :: rest => if x < b then 0 else npDigitize rest x + 1

/-- `numpy.bincount`: occurrence counts for `0 .. max l`, and the empty
list on empty input. -/
def npBincount (l : List Nat) : List Nat :=
  if l.isEmpty then []
  else (List.range (l.foldr max 0 + 1)).map (fun b => l.countP (fun v => v == b))

/-- The external dataset: a length and, optionally (`hasattr`), per-item
aspect ratios. -/
structure Dataset where
  length : Nat
  aspectRatios : Option (List ℚ)
deriving DecidableEq

/-- The constructor arguments of `Sampler.__init__`, immutable thereafter.
`aspectRatioThresholds = none` models Python `None`; `some []` models an
empty sequence, which is distinct from `None` but equally falsy. -/
structure SamplerConfig where
  batchSize : Nat
  shuffle : Bool
  aspectRatioThresholds : Option (List ℚ)
  padBatch : Bool
  syncSeedSchedule : Bool
  rank : Nat
  worldSize : Nat
  initSeed : Nat
deriving DecidableEq

/-- Python truthiness of `self.aspect_ratio_thresholds`: `None` and the
empty sequence are falsy. -/
def truthyThresholds (t : Option (List ℚ)) : Bool :=
  match t with
  | some (_ :: _) => true
  | _ => false

/-- The two `assert` statements of `Sampler.__init__` (the
`isinstance(…, Sequence)` half of the first assert is enforced by typing
here): construction succeeds iff this is `true`. -/
def initAsserts (cfg : SamplerConfig) : Bool :=
  cfg.padBatch || !truthyThresholds cfg.aspectRatioThresholds

/-- `whole_batch_size = self.world_size * self.batch_size`. -/
def wholeBatchSize (cfg : SamplerConfig) : Nat :=
  cfg.worldSize * cfg.batchSize

/-- The attributes `Sampler.setup` computes: lazily attached in Python,
bundled here.  In the non-bucketing branch only `numBatches` is set and
the bucket fields stay empty. -/
structure Schedule where
  bucketFlags : List Nat
  bucketSizes : List Nat
  padLengths : List Nat
  numBatches : Nat
deriving DecidableEq

/-- The mutable attributes of a `Sampler` object.  `schedule = none`
models the absence of the lazily-created `num_batches` attribute and
`shard = none` the absence of `_shard`. -/
structure SamplerState where
  epoch : Nat
  schedule : Option Schedule
  shard : Option (List (List Int))
  step : Nat
deriving DecidableEq

/-- The state right after `Sampler.__init__`. -/
def initialState : SamplerState :=
  { epoch := 0, schedule := none, shard := none, step := 0 }

/-- `Sampler.setup`: the flat batch count without bucketing, or bucket
flags / sizes / pad lengths with bucketing; the `assert` on the dataset
lacking `aspect_ratios` becomes the error case. -/
def Sampler.setup (cfg : SamplerConfig) (ds : Dataset) : Except String Schedule :=
  let whole := wholeBatchSize cfg
  match cfg.aspectRatioThresholds with
  | none =>
    Except.ok { bucketFlags := [], bucketSizes := [], padLengths := [],
                numBatches := ceilDiv ds.length whole }
  | some thresholds =>
    match ds.aspectRatios with
    | none => Except.error "dataset does not provide aspect ratio info"
    | some ratios =>
      let flags := ratios.map (npDigitize thresholds)
      let sizes := npBincount flags
      let pads := sizes.map (fun s => ceilDiv s whole * whole - s)
      Except.ok { bucketFlags := flags, bucketSizes := sizes, padLengths := pads,
                  numBatches := (sizes.map (fun s => ceilDiv s whole)).sum }

/-- The index range as integers, as built by
`np.arange(len(self.dataset))`. -/
def arangeInt (L : Nat) : List Int := (List.range L).map Int.ofNat

/-- The non-bucketing `shuffled_indices` of `Sampler.reset`: the permuted
index range, then either a prefix of itself (`pad_batch`) or `-1`
sentinels appended up to `len(self) * whole_batch_size`. -/
def nbStream (cfg : SamplerConfig) (L nb : Nat) (p : Nat → Nat → List Nat) : List Int :=
  let base : List Int := applyPerm (p 0 L) (arangeInt L) 0
  let pad := nb * wholeBatchSize cfg - L
  if cfg.padBatch then base ++ base.take pad
  else base ++ List.replicate pad (-1)

/-- The non-bucketing batch list of `Sampler.reset` after the batch-level
shuffle: `rand_perm(np.array(shuffled_indices).reshape(-1, batch_size))`.
The item-level shuffle is call 0 of the family `p`, the batch-level
shuffle call 1. -/
def streamBatches (cfg : SamplerConfig) (L nb : Nat) (p : Nat → Nat → List Nat) :
    List (List Int) :=
  let batches := chunksOf cfg.batchSize (nbStream cfg L nb p)
  applyPerm (p 1 batches.length) batches []

/-- The bucketing `shuffled_indices` of `Sampler.reset` together with the
number of permutation calls consumed: buckets are visited in ascending
id, empty buckets are skipped and consume no call, and each visited
bucket is permuted and padded with a prefix of its own permuted self. -/
def bucketStream (p : Nat → Nat → List Nat) (flags : List Nat)
    (sizesPads : List (Nat × Nat)) : List Int × Nat :=
  sizesPads.enum.foldl
    (fun acc ip =>
      if ip.2.1 == 0 then acc
      else
        let bucket : List Int :=
          ((List.range flags.length).filter (fun i => flags.getD i 0 == ip.1)).map
            (fun n => (n : Int))
        let shuffled := applyPerm (p acc.2 bucket.length) bucket (-1)
        (acc.1 ++ shuffled ++ shuffled.take ip.2.2, acc.2 + 1))
    ([], 0)

/-- `Sampler.reset`.  `oracle` models `np.random.RandomState(seed)` and
`ent` the process-global generator drawn when `sync_seed_schedule` is
false; with `shuffle` false the identity is used and the epoch counter is
not advanced (the increment sits inside the `elif sync_seed_schedule`
branch of the source). -/
def Sampler.reset (cfg : SamplerConfig) (ds : Dataset)
    (oracle : Nat → Nat → Nat → List Nat) (ent : Nat → Nat → List Nat)
    (st : SamplerState) : Except String SamplerState :=
  let ensured : Except String Schedule :=
    match st.schedule with
    | some sch => Except.ok sch
    | none => Sampler.setup cfg ds
  match ensured with
  | Except.error e => Except.error e
  | Except.ok sch =>
    let p : Nat → Nat → List Nat :=
      if !cfg.shuffle then fun _ n => List.range n
      else if cfg.syncSeedSchedule then oracle (st.epoch + cfg.initSeed)
      else ent
    let epoch' := if cfg.shuffle && cfg.syncSeedSchedule then st.epoch + 1 else st.epoch
    let shuffledBatches : List (List Int) :=
      if truthyThresholds cfg.aspectRatioThresholds then
        let sp := bucketStream p sch.bucketFlags (sch.bucketSizes.zip sch.padLengths)
        let batches := chunksOf cfg.batchSize sp.1
        applyPerm (p sp.2 batches.length) batches []
      else
        streamBatches cfg ds.length sch.numBatches p
    Except.ok { epoch := epoch', schedule := some sch,
                shard := some ((shuffledBatches.drop (cfg.rank * sch.numBatches)).take
                               sch.numBatches),
                step := 0 }

/-- `k` successive `reset` calls from the freshly constructed state; the
`ent` stream supplies each call's process-local entropy. -/
def runResets (cfg : SamplerConfig) (ds : Dataset)
    (oracle : Nat → Nat → Nat → List Nat) (ent : Nat → Nat → Nat → List Nat) :
    Nat → Except String SamplerState
  | 0 => Except.ok initialState
  | k + 1 =>
    match runResets cfg ds oracle ent k with
    | Except.error e => Except.error e
    | Except.ok st => Sampler.reset cfg ds oracle (ent k) st

/-- `Sampler.__len__`: triggers `setup` when the schedule is absent and
returns `num_batches`; it never touches shard, step or epoch. -/
def Sampler.lenOp (cfg : SamplerConfig) (ds : Dataset) (st : SamplerState) :
    Except String (Nat × SamplerState) :=
  match st.schedule with
  | some sch => Except.ok (sch.numBatches, st)
  | none =>
    match Sampler.setup cfg ds with
    | Except.error e => Except.error e
    | Except.ok sch => Except.ok (sch.numBatches, { st with schedule := some sch })

/-- `Sampler.__iter__`: runs `setup` when `num_batches` is absent, then
`reset` when — and only when — `_shard` is absent, and returns `self`. -/
def Sampler.iterOp (cfg : SamplerConfig) (ds : Dataset)
    (oracle : Nat → Nat → Nat → List Nat) (ent : Nat → Nat → List Nat)
    (st : SamplerState) : Except String SamplerState :=
  let ensured : Except String SamplerState :=
    match st.schedule with
    | some _ => Except.ok st
    | none =>
      match Sampler.setup cfg ds with
      | Except.error e => Except.error e
      | Except.ok sch => Except.ok { st with schedule := some sch }
  match ensured with
  | Except.error e => Except.error e
  | Except.ok st1 =>
    match st1.shard with
    | some _ => Except.ok st1
    | none => Sampler.reset cfg ds oracle ent st1

/-- `Sampler.__next__`: `StopIteration` (modelled by `none`, the state
returned untouched) once `_step` reaches `num_batches`, otherwise the
current row — filtered of `-1` sentinels when `pad_batch` is false — and
the stepped state. -/
def Sampler.next (cfg : SamplerConfig) (st : SamplerState) :
    Option (List Int) × SamplerState :=
  let nb := (st.schedule.map Schedule.numBatches).getD 0
  if nb ≤ st.step then (none, st)
  else
    let row := (st.shard.getD []).getD st.step []
    let ids := if cfg.padBatch then row else row.filter (fun v => v != -1)
    (some ids, { st with step := st.step + 1 })

/-- The batches produced by up to `k` successive `__next__` calls, ending
early at `StopIteration`. -/
def collectNext (cfg : SamplerConfig) : Nat → SamplerState → List (List Int)
  | 0, _ => []
  | k + 1, st =>
    match Sampler.next cfg st with
    | (none, _) => []
    | (some ids, st') => ids :: collectNext cfg k st'

/-- `ceil(L / whole_batch_size)`: the non-bucketing `num_batches`. -/
def nbOf (cfg : SamplerConfig) (L : Nat) : Nat :=
  ceilDiv L (wholeBatchSize cfg)

/-! ### Generic list and arithmetic lemmas -/

theorem map_getD_range (l : List α) (d : α) :
    (List.range l.length).map (fun i => l.getD i d) = l := by
  induction l with
  | nil => rfl
  | cons a t ih =>
    rw [List.length_cons, List.range_succ_eq_map, List.map_cons, List.map_map]
    have hc : ((fun i => (a :: t).getD i d) ∘ Nat.succ) = fun i => t.getD i d := by
      funext i
      simp [List.getD_cons_succ]
    simp only [List.getD_cons_zero, hc, ih]

theorem applyPerm_perm {p : List Nat} {x : List α} (d : α)
    (hp : p.Perm (List.range x.length)) : (applyPerm p x d).Perm x := by
  have h := hp.map (fun i => x.getD i d)
  rwa [map_getD_range] at h

theorem applyPerm_id (x : List α) (d : α) :
    applyPerm (List.range x.length) x d = x :=
  map_getD_range x d

theorem applyPerm_length {p : List Nat} {x : List α} (d : α)
    (hp : p.Perm (List.range x.length)) : (applyPerm p x d).length = x.length :=
  ((applyPerm_perm d hp).length_eq)

theorem mem_of_mem_applyPerm {p : List Nat} {x : List α} {d : α} {b : α}
    (hp : p.Perm (List.range x.length)) (hb : b ∈ applyPerm p x d) : b ∈ x :=
  ((applyPerm_perm d hp).mem_iff).mp hb

theorem le_ceilDiv_mul (a w : Nat) (hw : 0 < w) : a ≤ ceilDiv a w * w := by
  unfold ceilDiv
  have h1 := Nat.div_add_mod (a + w - 1) w
  have h2 : (a + w - 1) % w < w := Nat.mod_lt _ hw
  have h3 : (a + w - 1) / w * w = w * ((a + w - 1) / w) := Nat.mul_comm _ _
  rw [h3]
  generalize hm : w * ((a + w - 1) / w) = m at h1 ⊢
  omega

theorem ceilDiv_mul_self (m w : Nat) (hw : 0 < w) : ceilDiv (m * w) w = m := by
  unfold ceilDiv
  have h1 : m * w + w - 1 = w - 1 + m * w := by
    generalize m * w = t
    omega
  rw [h1, Nat.add_mul_div_right _ _ hw, Nat.div_eq_of_lt (by omega)]
  omega

theorem ceilDiv_of_dvd {L w : Nat} (hw : 0 < w) (h : w ∣ L) :
    ceilDiv L w * w = L := by
  obtain ⟨d, rfl⟩ := h
  rw [Nat.mul_comm w d, ceilDiv_mul_self d w hw]

theorem chunkGo_length (k : Nat) :
    ∀ (n : Nat) (l : List α), (chunkGo k n l).length = n := by
  intro n
  induction n with
  | zero => intro l; rfl
  | succ n ih => intro l; simp [chunkGo, ih]

theorem chunkGo_flatten (k : Nat) :
    ∀ (n : Nat) (l : List α), (chunkGo k n l).flatten = l.take (n * k) := by
  intro n
  induction n with
  | zero => intro l; simp [chunkGo]
  | succ n ih =>
    intro l
    have h1 : Nat.succ n * k = k + n * k := by rw [Nat.succ_mul, Nat.add_comm]
    rw [h1, List.take_add]
    simp only [chunkGo, List.flatten_cons, ih]

theorem chunkGo_mem_length (k : Nat) :
    ∀ (n : Nat) (l : List α), l.length = n * k →
    ∀ c ∈ chunkGo k n l, c.length = k := by
  intro n
  induction n with
  | zero => intro l _ c hc; exact absurd hc (List.not_mem_nil c)
  | succ n ih =>
    intro l hl c hc
    have hl' : l.length = n * k + k := by rw [hl, Nat.succ_mul]
    rcases List.mem_cons.mp hc with hc | hc
    · rw [hc, List.length_take, hl']
      generalize n * k = t
      omega
    · exact ih (l.drop k)
        (by rw [List.length_drop, hl']; generalize n * k = t; omega) c hc

theorem chunkGo_getD (k : Nat) :
    ∀ (n i : Nat) (l : List α), i < n →
    (chunkGo k n l).getD i [] = (l.drop (i * k)).take k := by
  intro n
  induction n with
  | zero => intro i l hi; omega
  | succ n ih =>
    intro i l hi
    cases i with
    | zero => simp [chunkGo]
    | succ i =>
      have := ih i (l.drop k) (by omega)
      simp only [chunkGo, List.getD_cons_succ, this, List.drop_drop]
      rw [Nat.succ_mul, Nat.add_comm]

theorem perm_flatten {s t : List (List α)} (h : s.Perm t) :
    s.flatten.Perm t.flatten := by
  induction h with
  | nil => exact List.Perm.refl _
  | cons a _ ih => simpa using ih.append_left a
  | swap a b s =>
    simp only [List.flatten_cons]
    rw [← List.append_assoc, ← List.append_assoc]
    exact (List.perm_append_comm).append_right _
  | trans _ _ ih1 ih2 => exact ih1.trans ih2

theorem flatten_sublist_mono {s t : List (List α)} (h : s.Sublist t) :
    s.flatten.Sublist t.flatten := by
  induction h with
  | slnil => exact List.Sublist.refl _
  | cons a _ ih => exact ih.trans (List.sublist_append_right a _)
  | cons₂ a _ ih => simpa using ih.append_left a

theorem flatten_slices (k : Nat) :
    ∀ (W : Nat) (S : List α), S.length = W * k →
    ((List.range W).map (fun r => (S.drop (r * k)).take k)).flatten = S := by
  intro W
  induction W with
  | zero =>
    intro S h
    rw [Nat.zero_mul] at h
    simp [List.eq_nil_of_length_eq_zero h]
  | succ W ih =>
    intro S h
    have h' : S.length = W * k + k := by rw [h, Nat.succ_mul]
    clear h
    rw [List.range_succ_eq_map, List.map_cons, List.map_map]
    simp only [List.flatten_cons, Nat.zero_mul, List.drop_zero]
    have hrest : ((List.range W).map ((fun r => (S.drop (r * k)).take k) ∘ Nat.succ))
        = (List.range W).map (fun r => ((S.drop k).drop (r * k)).take k) := by
      apply List.map_congr_left
      intro r _
      simp only [Function.comp]
      rw [List.drop_drop, Nat.succ_mul, Nat.add_comm]
    have hlen : (S.drop k).length = W * k := by
      rw [List.length_drop, h']
      generalize W * k = t
      omega
    rw [hrest, ih (S.drop k) hlen, List.take_append_drop]

theorem slices_flatten_disjoint {S : List (List α)} {k i j : Nat}
    (hnd : S.flatten.Nodup) (hij : i < j) :
    ∀ x ∈ ((S.drop (i * k)).take k).flatten, x ∉ ((S.drop (j * k)).take k).flatten := by
  intro x hxi hxj
  have h1 : (S.drop (i * k)).drop k = S.drop (i * k + k) := by
    rw [List.drop_drop, Nat.add_comm]
  have hS : S = S.take (i * k) ++ ((S.drop (i * k)).take k ++ S.drop (i * k + k)) := by
    rw [← h1, List.take_append_drop, List.take_append_drop]
  have hnd2 : (((S.drop (i * k)).take k).flatten ++
      (S.drop (i * k + k)).flatten).Nodup := by
    have h2 : S.flatten = (S.take (i * k)).flatten ++
        (((S.drop (i * k)).take k).flatten ++ (S.drop (i * k + k)).flatten) := by
      conv_lhs => rw [hS]
      rw [List.flatten_append, List.flatten_append]
    rw [h2] at hnd
    exact hnd.of_append_right
  have hdisj := List.disjoint_of_nodup_append hnd2
  have hle : i * k + k ≤ j * k := by
    have h3 : (i + 1) * k ≤ j * k := Nat.mul_le_mul_right k hij
    rwa [Nat.succ_mul] at h3
  have h4 : S.drop (j * k) = (S.drop (i * k + k)).drop (j * k - (i * k + k)) := by
    rw [List.drop_drop, Nat.add_sub_cancel' hle]
  have hsub : ((S.drop (j * k)).take k).Sublist (S.drop (i * k + k)) := by
    rw [h4]
    exact (List.take_sublist _ _).trans (List.drop_sublist _ _)
  exact hdisj hxi ((flatten_sublist_mono hsub).subset hxj)

/-! ### Properties of the embedded sampler pipeline -/

theorem arangeInt_length (L : Nat) : (arangeInt L).length = L := by
  simp [arangeInt]

theorem arangeInt_nodup (L : Nat) : (arangeInt L).Nodup := by
  unfold arangeInt
  refine List.Nodup.map ?_ (List.nodup_range _)
  intro a b h
  exact Int.ofNat.inj h

theorem nbStream_base_perm (L : Nat)
    (p : Nat → Nat → List Nat) (hp : (p 0 L).Perm (List.range L)) :
    (applyPerm (p 0 L) (arangeInt L) 0).Perm (arangeInt L) := by
  apply applyPerm_perm
  rw [arangeInt_length]
  exact hp

theorem nbStream_length (cfg : SamplerConfig) (L nb : Nat) (p : Nat → Nat → List Nat)
    (hp : (p 0 L).Perm (List.range L))
    (hle : L ≤ nb * wholeBatchSize cfg)
    (hpad : cfg.padBatch = true → nb * wholeBatchSize cfg - L ≤ L) :
    (nbStream cfg L nb p).length = nb * wholeBatchSize cfg := by
  have hbl : (applyPerm (p 0 L) (arangeInt L) 0).length = L := by
    rw [applyPerm_length]
    · exact arangeInt_length L
    · rw [arangeInt_length]; exact hp
  unfold nbStream
  cases hpb : cfg.padBatch with
  | false =>
    simp only [hpb, Bool.false_eq_true, if_false]
    rw [List.length_append, List.length_replicate, hbl]
    generalize nb * wholeBatchSize cfg = T at hle ⊢
    omega
  | true =>
    simp only [hpb, if_true]
    rw [List.length_append, List.length_take, hbl]
    have hp2 := hpad hpb
    generalize nb * wholeBatchSize cfg = T at hle hp2 ⊢
    omega

theorem nbStream_nodup_of_exact (cfg : SamplerConfig) (L nb : Nat)
    (p : Nat → Nat → List Nat) (hp : (p 0 L).Perm (List.range L))
    (hex : nb * wholeBatchSize cfg = L) :
    (nbStream cfg L nb p).Nodup := by
  have hbase := nbStream_base_perm L p hp
  have hnd : (applyPerm (p 0 L) (arangeInt L) 0).Nodup :=
    hbase.nodup_iff.mpr (arangeInt_nodup L)
  have hpad0 : nb * wholeBatchSize cfg - L = 0 := by omega
  unfold nbStream
  rw [hpad0]
  cases cfg.padBatch
  · simpa using hnd
  · simpa using hnd

/-- The schedule `setup` produces when `aspect_ratio_thresholds` is
`None`. -/
def nbSchedule (cfg : SamplerConfig) (L : Nat) : Schedule :=
  { bucketFlags := [], bucketSizes := [], padLengths := [], numBatches := nbOf cfg L }

theorem setup_nonbucket (cfg : SamplerConfig) (ds : Dataset)
    (hthr : cfg.aspectRatioThresholds = none) :
    Sampler.setup cfg ds = Except.ok (nbSchedule cfg ds.length) := by
  unfold Sampler.setup nbSchedule nbOf
  rw [hthr]

theorem reset_nonbucket (cfg : SamplerConfig) (ds : Dataset)
    (oracle : Nat → Nat → Nat → List Nat) (ent : Nat → Nat → List Nat)
    (st : SamplerState)
    (hthr : cfg.aspectRatioThresholds = none)
    (hsch : st.schedule = none ∨ st.schedule = some (nbSchedule cfg ds.length)) :
    Sampler.reset cfg ds oracle ent st = Except.ok
      { epoch := if cfg.shuffle && cfg.syncSeedSchedule then st.epoch + 1 else st.epoch,
        schedule := some (nbSchedule cfg ds.length),
        shard := some (((streamBatches cfg ds.length (nbOf cfg ds.length)
            (if !cfg.shuffle then fun _ n => List.range n
             else if cfg.syncSeedSchedule then oracle (st.epoch + cfg.initSeed)
             else ent)).drop (cfg.rank * nbOf cfg ds.length)).take (nbOf cfg ds.length)),
        step := 0 } := by
  rcases hsch with hsch | hsch <;>
    simp [Sampler.reset, hsch, setup_nonbucket cfg ds hthr, hthr, truthyThresholds,
      nbSchedule, nbOf]

theorem reset_ent_irrel (cfg : SamplerConfig) (ds : Dataset)
    (oracle : Nat → Nat → Nat → List Nat) (entA entB : Nat → Nat → List Nat)
    (st : SamplerState)
    (h : cfg.shuffle = false ∨ cfg.syncSeedSchedule = true) :
    Sampler.reset cfg ds oracle entA st = Sampler.reset cfg ds oracle entB st := by
  unfold Sampler.reset
  rcases h with h | h
  · simp only [h, Bool.not_false, if_true]
  · cases hs : cfg.shuffle
    · simp only [hs, Bool.not_false, if_true]
    · simp only [hs, Bool.not_true, Bool.false_eq_true, if_false, h, if_true]

theorem runResets_ent_irrel (cfg : SamplerConfig) (ds : Dataset)
    (oracle : Nat → Nat → Nat → List Nat) (entA entB : Nat → Nat → Nat → List Nat)
    (h : cfg.shuffle = false ∨ cfg.syncSeedSchedule = true) :
    ∀ k, runResets cfg ds oracle entA k = runResets cfg ds oracle entB k := by
  intro k
  induction k with
  | zero => rfl
  | succ k ih =>
    unfold runResets
    rw [ih]
    cases runResets cfg ds oracle entB k
    · rfl
    · exact reset_ent_irrel cfg ds oracle (entA k) (entB k) _ h

theorem runResets_succ (cfg : SamplerConfig) (ds : Dataset)
    (oracle : Nat → Nat → Nat → List Nat) (ent : Nat → Nat → Nat → List Nat)
    (k : Nat) (st : SamplerState)
    (h : runResets cfg ds oracle ent k = Except.ok st) :
    runResets cfg ds oracle ent (k + 1) = Sampler.reset cfg ds oracle (ent k) st := by
  unfold runResets
  rw [h]

theorem runResets_sync (cfg : SamplerConfig) (ds : Dataset)
    (oracle : Nat → Nat → Nat → List Nat) (ent : Nat → Nat → Nat → List Nat)
    (hthr : cfg.aspectRatioThresholds = none)
    (hsh : cfg.shuffle = true) (hsync : cfg.syncSeedSchedule = true) :
    ∀ k, runResets cfg ds oracle ent (k + 1) = Except.ok
      { epoch := k + 1,
        schedule := some (nbSchedule cfg ds.length),
        shard := some (((streamBatches cfg ds.length (nbOf cfg ds.length)
            (oracle (k + cfg.initSeed))).drop (cfg.rank * nbOf cfg ds.length)).take
            (nbOf cfg ds.length)),
        step := 0 } := by
  intro k
  induction k with
  | zero =>
    rw [runResets_succ cfg ds oracle ent 0 initialState rfl]
    rw [reset_nonbucket cfg ds oracle (ent 0) initialState hthr (Or.inl rfl)]
    simp [hsh, hsync, initialState]
  | succ k ih =>
    rw [runResets_succ cfg ds oracle ent (k + 1) _ ih]
    rw [reset_nonbucket cfg ds oracle (ent (k + 1)) _ hthr (Or.inr rfl)]
    simp [hsh, hsync]

theorem streamBatches_length (cfg : SamplerConfig) (L nb : Nat)
    (p : Nat → Nat → List Nat) (hfam : ValidFam p) (hB : 0 < cfg.batchSize)
    (hlen : (nbStream cfg L nb p).length = nb * wholeBatchSize cfg) :
    (streamBatches cfg L nb p).length = cfg.worldSize * nb := by
  unfold streamBatches chunksOf
  rw [applyPerm_length _ (hfam 1 _), chunkGo_length, hlen]
  unfold wholeBatchSize
  rw [show nb * (cfg.worldSize * cfg.batchSize)
      = (cfg.worldSize * nb) * cfg.batchSize by ring]
  exact ceilDiv_mul_self _ _ hB

theorem streamBatches_row_length (cfg : SamplerConfig) (L nb : Nat)
    (p : Nat → Nat → List Nat) (hfam : ValidFam p) (hB : 0 < cfg.batchSize)
    (hlen : (nbStream cfg L nb p).length = nb * wholeBatchSize cfg) :
    ∀ r ∈ streamBatches cfg L nb p, r.length = cfg.batchSize := by
  intro r hr
  unfold streamBatches at hr
  have hmem : r ∈ chunksOf cfg.batchSize (nbStream cfg L nb p) :=
    mem_of_mem_applyPerm (hfam 1 _) hr
  unfold chunksOf at hmem
  refine chunkGo_mem_length _ _ _ ?_ r hmem
  rw [hlen]
  unfold wholeBatchSize
  rw [show nb * (cfg.worldSize * cfg.batchSize)
      = (nb * cfg.worldSize) * cfg.batchSize by ring,
    ceilDiv_mul_self _ _ hB]

theorem streamBatches_flatten_perm (cfg : SamplerConfig) (L nb : Nat)
    (p : Nat → Nat → List Nat) (hfam : ValidFam p) (hB : 0 < cfg.batchSize) :
    (streamBatches cfg L nb p).flatten.Perm (nbStream cfg L nb p) := by
  unfold streamBatches
  have hperm : (applyPerm
      (p 1 (chunksOf cfg.batchSize (nbStream cfg L nb p)).length)
      (chunksOf cfg.batchSize (nbStream cfg L nb p)) []).Perm
      (chunksOf cfg.batchSize (nbStream cfg L nb p)) :=
    applyPerm_perm [] (hfam 1 _)
  have h1 := perm_flatten hperm
  have h2 : (chunksOf cfg.batchSize (nbStream cfg L nb p)).flatten
      = nbStream cfg L nb p := by
    unfold chunksOf
    rw [chunkGo_flatten]
    exact List.take_of_length_le (le_ceilDiv_mul _ _ hB)
  rwa [h2] at h1

theorem collectNext_spec (cfg : SamplerConfig) (sch : Schedule)
    (rows : List (List Int)) (hlen : rows.length = sch.numBatches) :
    ∀ (k s : Nat) (st : SamplerState),
    st.schedule = some sch → st.shard = some rows → st.step = s →
    s + k = sch.numBatches →
    collectNext cfg k st = ((rows.drop s).take k).map
      (fun r => if cfg.padBatch then r else r.filter (fun v => v != -1)) := by
  intro k
  induction k with
  | zero => intro s st _ _ _ _; simp [collectNext]
  | succ k ih =>
    intro s st h1 h2 h3 h5
    have hs : s < sch.numBatches := by omega
    have hnext : Sampler.next cfg st =
        (some (if cfg.padBatch then rows.getD s []
               else (rows.getD s []).filter (fun v => v != -1)),
         { st with step := s + 1 }) := by
      unfold Sampler.next
      rw [h1, h2, h3]
      have hnb : (Option.map Schedule.numBatches (some sch)).getD 0 = sch.numBatches :=
        rfl
      rw [hnb, if_neg (by omega), Option.getD_some]
    unfold collectNext
    rw [hnext]
    show (if cfg.padBatch then rows.getD s []
          else (rows.getD s []).filter (fun v => v != -1)) ::
        collectNext cfg k { st with step := s + 1 }
      = ((rows.drop s).take (k + 1)).map
        (fun r => if cfg.padBatch then r else r.filter (fun v => v != -1))
    have hrec := ih (s + 1) { st with step := s + 1 }
      (by simpa using h1) (by simpa using h2) rfl (by omega)
    rw [hrec]
    have hlt : s < rows.length := by omega
    have hdrop : rows.drop s = rows.getD s [] :: rows.drop (s + 1) := by
      rw [List.drop_eq_getElem_cons hlt, List.getD_eq_getElem _ _ hlt]
    rw [hdrop, List.take_succ_cons, List.map_cons]

/-- `ceilDiv` really is the mathematical ceiling of the division, as the
spec's `ceil(L / (W*B))` demands. -/
theorem ceilDiv_eq_ceil (a w : Nat) (hw : 0 < w) :
    ((ceilDiv a w : Nat) : ℤ) = Int.ceil ((a : ℚ) / (w : ℚ)) := by
  have hq : (0 : ℚ) < (w : ℚ) := by exact_mod_cast hw
  have hle := le_ceilDiv_mul a w hw
  have hdm := Nat.div_mul_le_self (a + w - 1) w
  have hz : ceilDiv a w * w < a + w := by
    unfold ceilDiv
    generalize hgen : (a + w - 1) / w * w = t at hdm ⊢
    omega
  symm
  rw [Int.ceil_eq_iff]
  constructor
  · have hzq : ((ceilDiv a w : ℚ)) * (w : ℚ) < (a : ℚ) + (w : ℚ) := by
      exact_mod_cast hz
    push_cast
    rw [lt_div_iff₀ hq]
    have hexp : (((ceilDiv a w : Nat) : ℚ) - 1) * (w : ℚ)
        = ((ceilDiv a w : Nat) : ℚ) * (w : ℚ) - (w : ℚ) := by ring
    rw [hexp]
    linarith
  · push_cast
    rw [div_le_iff₀ hq]
    exact_mod_cast hle

/-! ### Claim C3 -/

/-- C3: without bucketing, `setup` computes `num_batches = ceil(L / (W*B))`
(here proved against the genuine rational ceiling); `__len__` returns that
value in any state, running Setup when the schedule is absent but never
Reset — shard, step and epoch are untouched — and repeated calls return
the same value. -/
theorem C3_len_spec (cfg : SamplerConfig) (ds : Dataset)
    (hthr : cfg.aspectRatioThresholds = none)
    (hB : 0 < cfg.batchSize) (hW : 0 < cfg.worldSize) :
    (Sampler.setup cfg ds = Except.ok (nbSchedule cfg ds.length)
      ∧ ((nbOf cfg ds.length : Nat) : ℤ)
          = Int.ceil ((ds.length : ℚ) / ((cfg.worldSize * cfg.batchSize : Nat) : ℚ)))
    ∧ (∀ st : SamplerState, st.schedule = none →
        Sampler.lenOp cfg ds st = Except.ok (nbOf cfg ds.length,
          { st with schedule := some (nbSchedule cfg ds.length) })
        ∧ Sampler.lenOp cfg ds { st with schedule := some (nbSchedule cfg ds.length) }
          = Except.ok (nbOf cfg ds.length,
              { st with schedule := some (nbSchedule cfg ds.length) }))
    ∧ (∀ (st : SamplerState) (sch : Schedule), st.schedule = some sch →
        Sampler.lenOp cfg ds st = Except.ok (sch.numBatches, st)) := by
  have hw : 0 < wholeBatchSize cfg := Nat.mul_pos hW hB
  refine ⟨⟨setup_nonbucket cfg ds hthr, ?_⟩, ?_, ?_⟩
  · exact ceilDiv_eq_ceil ds.length (cfg.worldSize * cfg.batchSize) hw
  · intro st hst
    constructor
    · unfold Sampler.lenOp
      rw [hst, setup_nonbucket cfg ds hthr]
      rfl
    · unfold Sampler.lenOp
      rfl
  · intro st sch hst
    unfold Sampler.lenOp
    rw [hst]

/-- C3 witness: a concrete no-bucketing configuration (L = 7, B = 2,
W = 2): the hypotheses hold and so does the specification of `__len__`. -/
theorem C3_witness :
    (SamplerConfig.aspectRatioThresholds ⟨2, true, none, true, true, 0, 2, 1⟩ = none)
    ∧ ((Sampler.setup ⟨2, true, none, true, true, 0, 2, 1⟩ ⟨7, none⟩
          = Except.ok (nbSchedule ⟨2, true, none, true, true, 0, 2, 1⟩ 7)
        ∧ ((nbOf ⟨2, true, none, true, true, 0, 2, 1⟩ 7 : Nat) : ℤ)
            = Int.ceil ((7 : ℚ) / ((2 * 2 : Nat) : ℚ)))
      ∧ (∀ st : SamplerState, st.schedule = none →
          Sampler.lenOp ⟨2, true, none, true, true, 0, 2, 1⟩ ⟨7, none⟩ st
            = Except.ok (nbOf ⟨2, true, none, true, true, 0, 2, 1⟩ 7,
                { st with schedule := some (nbSchedule ⟨2, true, none, true, true, 0, 2, 1⟩ 7) })
          ∧ Sampler.lenOp ⟨2, true, none, true, true, 0, 2, 1⟩ ⟨7, none⟩
                { st with schedule := some (nbSchedule ⟨2, true, none, true, true, 0, 2, 1⟩ 7) }
            = Except.ok (nbOf ⟨2, true, none, true, true, 0, 2, 1⟩ 7,
                { st with schedule := some (nbSchedule ⟨2, true, none, true, true, 0, 2, 1⟩ 7) }))
      ∧ (∀ (st : SamplerState) (sch : Schedule), st.schedule = some sch →
          Sampler.lenOp ⟨2, true, none, true, true, 0, 2, 1⟩ ⟨7, none⟩ st
            = Except.ok (sch.numBatches, st))) :=
  ⟨rfl, C3_len_spec ⟨2, true, none, true, true, 0, 2, 1⟩ ⟨7, none⟩ rfl
    (by decide) (by decide)⟩

/-! ### Claim C9 -/

/-- C9: in any state whose `_step` has reached `num_batches`, `__next__`
raises StopIteration (modelled by the `none` result) and leaves the whole
sampler state — shard, step, epoch — unchanged. -/
theorem C9_stop_iteration (cfg : SamplerConfig) (st : SamplerState) (sch : Schedule)
    (h1 : st.schedule = some sch) (h2 : sch.numBatches ≤ st.step) :
    Sampler.next cfg st = (none, st) := by
  unfold Sampler.next
  rw [h1]
  have hnb : (Option.map Schedule.numBatches (some sch)).getD 0 = sch.numBatches := rfl
  rw [hnb, if_pos h2]

/-- C9 witness: a concrete exhausted state (num_batches = 1, step = 1):
`__next__` stops and the state is returned untouched. -/
theorem C9_witness :
    (Schedule.numBatches ⟨[], [], [], 1⟩
        ≤ SamplerState.step ⟨0, some ⟨[], [], [], 1⟩, some [[0, 1]], 1⟩)
    ∧ Sampler.next ⟨2, true, none, true, true, 0, 1, 1⟩
        ⟨0, some ⟨[], [], [], 1⟩, some [[0, 1]], 1⟩
      = (none, ⟨0, some ⟨[], [], [], 1⟩, some [[0, 1]], 1⟩) :=
  ⟨by decide, C9_stop_iteration ⟨2, true, none, true, true, 0, 1, 1⟩
    ⟨0, some ⟨[], [], [], 1⟩, some [[0, 1]], 1⟩ ⟨[], [], [], 1⟩ rfl (by decide)⟩

/-! ### Claim C7 -/

/-- C7 (amended): per `reset`, the epoch counter increments by exactly one
when BOTH `shuffle` and `sync_seed_schedule` hold (the increment sits in
the `elif sync_seed_schedule` branch, skipped when `shuffle` is false) and
is otherwise unchanged; `__len__` and `__next__` never change it (`setup`
computes a schedule and touches no state at all). -/
theorem C7_epoch_frame (cfg : SamplerConfig) (ds : Dataset)
    (oracle : Nat → Nat → Nat → List Nat) (ent : Nat → Nat → List Nat) :
    (∀ st st', Sampler.reset cfg ds oracle ent st = Except.ok st' →
      st'.epoch = (if cfg.shuffle && cfg.syncSeedSchedule then st.epoch + 1
                   else st.epoch))
    ∧ (∀ st n st', Sampler.lenOp cfg ds st = Except.ok (n, st') →
        st'.epoch = st.epoch)
    ∧ (∀ st, ((Sampler.next cfg st).2).epoch = st.epoch) := by
  refine ⟨?_, ?_, ?_⟩
  · intro st st' h
    simp only [Sampler.reset] at h
    split at h
    · exact absurd h (by simp)
    · injection h with h2
      rw [← h2]
  · intro st n st' h
    simp only [Sampler.lenOp] at h
    split at h
    · injection h with h2
      rw [show st' = (n, st').2 from rfl, ← h2]
    · split at h
      · exact absurd h (by simp)
      · injection h with h2
        rw [show st' = (n, st').2 from rfl, ← h2]
  · intro st
    simp only [Sampler.next]
    split
    · rfl
    · rfl

/-- C7 witness: a concrete shuffling synchronized sampler: one reset takes
the epoch from 0 to 1, while `__len__` and `__next__` leave it alone. -/
theorem C7_witness :
    (∀ st st', Sampler.reset ⟨2, true, none, true, true, 0, 1, 1⟩ ⟨4, none⟩
        (fun _ _ n => List.range n) (fun _ n => List.range n) st = Except.ok st' →
      st'.epoch = (if SamplerConfig.shuffle ⟨2, true, none, true, true, 0, 1, 1⟩
            && SamplerConfig.syncSeedSchedule ⟨2, true, none, true, true, 0, 1, 1⟩
          then st.epoch + 1 else st.epoch))
    ∧ (∀ st n st', Sampler.lenOp ⟨2, true, none, true, true, 0, 1, 1⟩ ⟨4, none⟩ st
          = Except.ok (n, st') → st'.epoch = st.epoch)
    ∧ (∀ st, ((Sampler.next ⟨2, true, none, true, true, 0, 1, 1⟩ st).2).epoch
        = st.epoch) :=
  C7_epoch_frame ⟨2, true, none, true, true, 0, 1, 1⟩ ⟨4, none⟩
    (fun _ _ n => List.range n) (fun _ n => List.range n)

/-- C7 counterexample: with `sync_seed_schedule = true` but `shuffle =
false`, a reset leaves the epoch counter at 0 — the claim demands an
increment to 1 whenever `sync_seed_schedule` is true. -/
theorem C7_cex :
    SamplerConfig.syncSeedSchedule ⟨2, false, none, true, true, 0, 1, 1⟩ = true
    ∧ (Sampler.reset ⟨2, false, none, true, true, 0, 1, 1⟩ ⟨4, none⟩
        (fun _ _ n => List.range n) (fun _ n => List.range n)
        initialState).map SamplerState.epoch = Except.ok 0 := by
  exact ⟨rfl, rfl⟩

/-! ### Claim C8 -/

/-- C8 (amended): `__iter__` is lazy, not per-epoch: with the schedule
present it resets only when `_shard` is absent; once a shard exists —
consumed or not — `__iter__` returns the sampler unchanged, so a fresh
epoch needs an explicit external `reset`. -/
theorem C8_iter_lazy (cfg : SamplerConfig) (ds : Dataset)
    (oracle : Nat → Nat → Nat → List Nat) (ent : Nat → Nat → List Nat)
    (st : SamplerState) (sch : Schedule) (hsch : st.schedule = some sch) :
    (∀ s, st.shard = some s →
      Sampler.iterOp cfg ds oracle ent st = Except.ok st)
    ∧ (st.shard = none →
      Sampler.iterOp cfg ds oracle ent st = Sampler.reset cfg ds oracle ent st) := by
  constructor
  · intro s hs
    simp only [Sampler.iterOp]
    rw [hsch]
    simp only []
    rw [hs]
  · intro hs
    simp only [Sampler.iterOp]
    rw [hsch]
    simp only []
    rw [hs]

/-- C8 witness: with a shard present `__iter__` returns the state as is;
with the shard absent it resets. -/
theorem C8_witness :
    (SamplerState.schedule ⟨0, some ⟨[], [], [], 2⟩, some [[0], [1]], 2⟩
        = some ⟨[], [], [], 2⟩)
    ∧ (∀ s, SamplerState.shard ⟨0, some ⟨[], [], [], 2⟩, some [[0], [1]], 2⟩ = some s →
        Sampler.iterOp ⟨1, false, none, true, true, 0, 1, 1⟩ ⟨2, none⟩
          (fun _ _ n => List.range n) (fun _ n => List.range n)
          ⟨0, some ⟨[], [], [], 2⟩, some [[0], [1]], 2⟩
        = Except.ok ⟨0, some ⟨[], [], [], 2⟩, some [[0], [1]], 2⟩)
    ∧ (SamplerState.shard ⟨0, some ⟨[], [], [], 2⟩, some [[0], [1]], 2⟩ = none →
        Sampler.iterOp ⟨1, false, none, true, true, 0, 1, 1⟩ ⟨2, none⟩
          (fun _ _ n => List.range n) (fun _ n => List.range n)
          ⟨0, some ⟨[], [], [], 2⟩, some [[0], [1]], 2⟩
        = Sampler.reset ⟨1, false, none, true, true, 0, 1, 1⟩ ⟨2, none⟩
            (fun _ _ n => List.range n) (fun _ n => List.range n)
            ⟨0, some ⟨[], [], [], 2⟩, some [[0], [1]], 2⟩) :=
  ⟨rfl, (C8_iter_lazy ⟨1, false, none, true, true, 0, 1, 1⟩ ⟨2, none⟩
      (fun _ _ n => List.range n) (fun _ n => List.range n)
      ⟨0, some ⟨[], [], [], 2⟩, some [[0], [1]], 2⟩ ⟨[], [], [], 2⟩ rfl).1,
    (C8_iter_lazy ⟨1, false, none, true, true, 0, 1, 1⟩ ⟨2, none⟩
      (fun _ _ n => List.range n) (fun _ n => List.range n)
      ⟨0, some ⟨[], [], [], 2⟩, some [[0], [1]], 2⟩ ⟨[], [], [], 2⟩ rfl).2⟩

/-- The C8 counterexample state: L = 2, B = 1, W = 1, shuffle off; one
reset, then both batches consumed by `__next__`, leaving step = 2 =
num_batches. -/
def c8Exhausted : SamplerState :=
  let cfg : SamplerConfig := ⟨1, false, none, true, true, 0, 1, 1⟩
  let st0 := (Sampler.reset cfg ⟨2, none⟩ (fun _ _ n => List.range n)
    (fun _ n => List.range n) initialState).toOption.getD initialState
  (Sampler.next cfg (Sampler.next cfg st0).2).2

/-- C8 counterexample: on the fully consumed sampler (`step = 2 =
num_batches`), a new `__iter__` does NOT reset — the state comes back
unchanged with `step` still 2, and the next `__next__` still signals
StopIteration instead of starting a fresh epoch of 2 batches. -/
theorem C8_cex :
    c8Exhausted.step = 2
    ∧ (c8Exhausted.schedule.map Schedule.numBatches) = some 2
    ∧ Sampler.iterOp ⟨1, false, none, true, true, 0, 1, 1⟩ ⟨2, none⟩
        (fun _ _ n => List.range n) (fun _ n => List.range n) c8Exhausted
      = Except.ok c8Exhausted
    ∧ (Sampler.next ⟨1, false, none, true, true, 0, 1, 1⟩ c8Exhausted).1 = none := by
  refine ⟨rfl, rfl, ?_, rfl⟩
  rfl

/-! ### Claim C10 -/

theorem reset_untruthy (cfg : SamplerConfig) (ds : Dataset)
    (oracle : Nat → Nat → Nat → List Nat) (ent : Nat → Nat → List Nat)
    (st : SamplerState) (sch : Schedule)
    (htr : truthyThresholds cfg.aspectRatioThresholds = false)
    (hsch : st.schedule = some sch) :
    Sampler.reset cfg ds oracle ent st = Except.ok
      { epoch := if cfg.shuffle && cfg.syncSeedSchedule then st.epoch + 1 else st.epoch,
        schedule := some sch,
        shard := some (((streamBatches cfg ds.length sch.numBatches
            (if !cfg.shuffle then fun _ n => List.range n
             else if cfg.syncSeedSchedule then oracle (st.epoch + cfg.initSeed)
             else ent)).drop (cfg.rank * sch.numBatches)).take sch.numBatches),
        step := 0 } := by
  simp [Sampler.reset, hsch, htr]

/-- C10: with `aspect_ratio_thresholds` an empty sequence (falsy but not
`None`) construction succeeds even with `pad_batch = false`; `setup` takes
the bucketing branch — failing exactly when the dataset has no
`aspect_ratios` and otherwise putting every item in bucket 0 — while
`reset` takes the non-bucketing branch, behaving exactly as if the
thresholds were `None`: the two phases disagree about bucketing. -/
theorem C10_empty_thresholds (cfg : SamplerConfig) (ds : Dataset)
    (hthr : cfg.aspectRatioThresholds = some []) :
    initAsserts cfg = true
    ∧ (ds.aspectRatios = none → ∃ e, Sampler.setup cfg ds = Except.error e)
    ∧ (∀ ratios, ds.aspectRatios = some ratios →
        ∃ sch, Sampler.setup cfg ds = Except.ok sch
          ∧ sch.bucketFlags = ratios.map (fun _ => 0))
    ∧ (∀ (oracle : Nat → Nat → Nat → List Nat) (ent : Nat → Nat → List Nat)
        (st : SamplerState) (sch : Schedule), st.schedule = some sch →
        Sampler.reset cfg ds oracle ent st
          = Sampler.reset { cfg with aspectRatioThresholds := none } ds oracle ent st) := by
  refine ⟨?_, ?_, ?_, ?_⟩
  · unfold initAsserts
    rw [hthr]
    simp [truthyThresholds]
  · intro hra
    refine ⟨"dataset does not provide aspect ratio info", ?_⟩
    unfold Sampler.setup
    rw [hthr, hra]
  · intro ratios hra
    refine ⟨{ bucketFlags := ratios.map (npDigitize []),
              bucketSizes := npBincount (ratios.map (npDigitize [])),
              padLengths := (npBincount (ratios.map (npDigitize []))).map
                (fun s => ceilDiv s (wholeBatchSize cfg) * wholeBatchSize cfg - s),
              numBatches := ((npBincount (ratios.map (npDigitize []))).map
                (fun s => ceilDiv s (wholeBatchSize cfg))).sum }, ?_, ?_⟩
    · unfold Sampler.setup
      rw [hthr, hra]
    · show ratios.map (npDigitize []) = ratios.map (fun _ => 0)
      exact List.map_congr_left (fun x _ => rfl)
  · intro oracle ent st sch hsch
    rw [reset_untruthy cfg ds oracle ent st sch (by rw [hthr]; rfl) hsch,
      reset_untruthy { cfg with aspectRatioThresholds := none } ds oracle ent st sch
        rfl hsch]
    rfl

/-- C10 witness: `B = 2`, `W = 1`, `pad_batch = false`,
`aspect_ratio_thresholds = []`: the asserts pass, setup fails without
ratios, buckets everything into 0 with them, and reset behaves like the
threshold-free sampler. -/
theorem C10_witness :
    (SamplerConfig.aspectRatioThresholds ⟨2, false, some [], false, true, 0, 1, 1⟩
        = some [])
    ∧ (initAsserts ⟨2, false, some [], false, true, 0, 1, 1⟩ = true
      ∧ (Dataset.aspectRatios ⟨4, some [1, 2, 3, 4]⟩ = none →
          ∃ e, Sampler.setup ⟨2, false, some [], false, true, 0, 1, 1⟩
            ⟨4, some [1, 2, 3, 4]⟩ = Except.error e)
      ∧ (∀ ratios, Dataset.aspectRatios ⟨4, some [1, 2, 3, 4]⟩ = some ratios →
          ∃ sch, Sampler.setup ⟨2, false, some [], false, true, 0, 1, 1⟩
              ⟨4, some [1, 2, 3, 4]⟩ = Except.ok sch
            ∧ sch.bucketFlags = ratios.map (fun _ => 0))
      ∧ (∀ (oracle : Nat → Nat → Nat → List Nat) (ent : Nat → Nat → List Nat)
          (st : SamplerState) (sch : Schedule), st.schedule = some sch →
          Sampler.reset ⟨2, false, some [], false, true, 0, 1, 1⟩
              ⟨4, some [1, 2, 3, 4]⟩ oracle ent st
            = Sampler.reset { SamplerConfig.mk 2 false (some []) false true 0 1 1 with
                  aspectRatioThresholds := none } ⟨4, some [1, 2, 3, 4]⟩ oracle ent st)) :=
  ⟨rfl, C10_empty_thresholds ⟨2, false, some [], false, true, 0, 1, 1⟩
    ⟨4, some [1, 2, 3, 4]⟩ rfl⟩

/-! ### Claim C6 -/

/-- On monotonically increasing bins, the insertion-index search of
`np.digitize` returns exactly the number of bins not exceeding `x`. -/
theorem npDigitize_sorted (bins : List ℚ) (x : ℚ) (hs : bins.Sorted (· ≤ ·)) :
    npDigitize bins x = bins.countP (fun c => decide (c ≤ x)) := by
  induction bins with
  | nil => rfl
  | cons b rest ih =>
    rw [List.sorted_cons] at hs
    obtain ⟨hb, hrest⟩ := hs
    unfold npDigitize
    by_cases hx : x < b
    · rw [if_pos hx]
      symm
      rw [List.countP_cons_of_neg]
      · rw [List.countP_eq_zero]
        intro c hc
        simp only [decide_eq_true_eq]
        exact not_le.mpr (lt_of_lt_of_le hx (hb c hc))
      · simp only [decide_eq_true_eq]
        exact not_le.mpr hx
    · rw [if_neg hx, ih hrest, List.countP_cons_of_pos]
      simp only [decide_eq_true_eq]
      exact not_lt.mp hx

theorem getD_map_lt {α β : Type} {l : List α} {f : α → β} {i : Nat} (d : α) (d' : β)
    (h : i < l.length) : (l.map f).getD i d' = f (l.getD i d) := by
  rw [List.getD_eq_getElem _ _ (by simpa using h), List.getD_eq_getElem _ _ h,
    List.getElem_map]

/-- C6: with bucketing on (sorted) thresholds, every item's bucket flag
equals the number of thresholds less than or equal to its aspect ratio
(so each item lands in exactly the one bucket this value names), and each
bucket's pad length rounds its size up to an exact multiple of
`world_size * batch_size`. -/
theorem C6_bucket_spec (cfg : SamplerConfig) (ds : Dataset)
    (bins ratios : List ℚ)
    (hthr : cfg.aspectRatioThresholds = some bins)
    (hsort : bins.Sorted (· ≤ ·))
    (hra : ds.aspectRatios = some ratios)
    (hw : 0 < wholeBatchSize cfg) :
    ∃ sch, Sampler.setup cfg ds = Except.ok sch
      ∧ (∀ i, i < ratios.length →
          sch.bucketFlags.getD i 0
            = bins.countP (fun c => decide (c ≤ ratios.getD i 0)))
      ∧ sch.padLengths.length = sch.bucketSizes.length
      ∧ (∀ b, b < sch.bucketSizes.length →
          (sch.bucketSizes.getD b 0 + sch.padLengths.getD b 0) % wholeBatchSize cfg
            = 0) := by
  refine ⟨{ bucketFlags := ratios.map (npDigitize bins),
            bucketSizes := npBincount (ratios.map (npDigitize bins)),
            padLengths := (npBincount (ratios.map (npDigitize bins))).map
              (fun s => ceilDiv s (wholeBatchSize cfg) * wholeBatchSize cfg - s),
            numBatches := ((npBincount (ratios.map (npDigitize bins))).map
              (fun s => ceilDiv s (wholeBatchSize cfg))).sum }, ?_, ?_, ?_, ?_⟩
  · unfold Sampler.setup
    rw [hthr, hra]
  · intro i hi
    show (ratios.map (npDigitize bins)).getD i 0 = _
    rw [getD_map_lt 0 0 hi, npDigitize_sorted _ _ hsort]
  · exact List.length_map _ _
  · intro b hb
    show ((npBincount (ratios.map (npDigitize bins))).getD b 0
        + ((npBincount (ratios.map (npDigitize bins))).map
            (fun s => ceilDiv s (wholeBatchSize cfg) * wholeBatchSize cfg - s)).getD b 0)
        % wholeBatchSize cfg = 0
    rw [getD_map_lt 0 0 hb]
    have hle := le_ceilDiv_mul ((npBincount (ratios.map (npDigitize bins))).getD b 0)
      (wholeBatchSize cfg) hw
    have heq : (npBincount (ratios.map (npDigitize bins))).getD b 0
        + (ceilDiv ((npBincount (ratios.map (npDigitize bins))).getD b 0)
            (wholeBatchSize cfg) * wholeBatchSize cfg
          - (npBincount (ratios.map (npDigitize bins))).getD b 0)
        = ceilDiv ((npBincount (ratios.map (npDigitize bins))).getD b 0)
            (wholeBatchSize cfg) * wholeBatchSize cfg := by
      generalize ceilDiv ((npBincount (ratios.map (npDigitize bins))).getD b 0)
        (wholeBatchSize cfg) * wholeBatchSize cfg = t at hle ⊢
      omega
    rw [heq]
    exact Nat.mul_mod_left _ _

/-- C6 witness: thresholds `[3/2]`, ratios `[1, 2, 1, 2]`, `W*B = 2`: the
flags are the counts of thresholds below each ratio and each bucket pads
to a multiple of 2. -/
theorem C6_witness :
    (0 < wholeBatchSize ⟨2, true, some [3 / 2], true, true, 0, 1, 1⟩)
    ∧ ∃ sch, Sampler.setup ⟨2, true, some [3 / 2], true, true, 0, 1, 1⟩
          ⟨4, some [1, 2, 1, 2]⟩ = Except.ok sch
        ∧ (∀ i, i < List.length ([1, 2, 1, 2] : List ℚ) →
            sch.bucketFlags.getD i 0
              = List.countP (fun c => decide (c ≤ List.getD ([1, 2, 1, 2] : List ℚ) i 0))
                  ([3 / 2] : List ℚ))
        ∧ sch.padLengths.length = sch.bucketSizes.length
        ∧ (∀ b, b < sch.bucketSizes.length →
            (sch.bucketSizes.getD b 0 + sch.padLengths.getD b 0)
              % wholeBatchSize ⟨2, true, some [3 / 2], true, true, 0, 1, 1⟩ = 0) :=
  ⟨by decide, C6_bucket_spec ⟨2, true, some [3 / 2], true, true, 0, 1, 1⟩
    ⟨4, some [1, 2, 1, 2]⟩ [3 / 2] [1, 2, 1, 2] rfl
    (List.sorted_singleton _) rfl (by decide)⟩

/-! ### Claim C2 -/

/-- C2 (amended): whenever the process-local entropy source is unused —
`shuffle` off or `sync_seed_schedule` on; otherwise the unsynchronized
global generator makes runs differ — two sampler instances of identical
configuration driven through the same sequence of resets end in identical
states whatever entropy each process drew, and in particular their shard
sequences coincide. -/
theorem C2_determinism (cfg : SamplerConfig) (ds : Dataset)
    (oracle : Nat → Nat → Nat → List Nat) (entA entB : Nat → Nat → Nat → List Nat)
    (h : cfg.shuffle = false ∨ cfg.syncSeedSchedule = true) (k : Nat) :
    runResets cfg ds oracle entA k = runResets cfg ds oracle entB k
    ∧ (runResets cfg ds oracle entA k).map SamplerState.shard
      = (runResets cfg ds oracle entB k).map SamplerState.shard :=
  ⟨runResets_ent_irrel cfg ds oracle entA entB h k,
   by rw [runResets_ent_irrel cfg ds oracle entA entB h k]⟩

/-- C2 witness: a synchronized shuffling configuration run twice, with two
different entropy streams, through three resets: identical outcomes. -/
theorem C2_witness :
    (SamplerConfig.shuffle ⟨2, true, none, true, true, 0, 1, 1⟩ = false
      ∨ SamplerConfig.syncSeedSchedule ⟨2, true, none, true, true, 0, 1, 1⟩ = true)
    ∧ (runResets ⟨2, true, none, true, true, 0, 1, 1⟩ ⟨5, none⟩
          (fun _ _ n => List.range n) (fun _ _ n => List.range n) 3
        = runResets ⟨2, true, none, true, true, 0, 1, 1⟩ ⟨5, none⟩
          (fun _ _ n => List.range n) (fun _ _ n => (List.range n).reverse) 3
      ∧ (runResets ⟨2, true, none, true, true, 0, 1, 1⟩ ⟨5, none⟩
          (fun _ _ n => List.range n) (fun _ _ n => List.range n) 3).map
            SamplerState.shard
        = (runResets ⟨2, true, none, true, true, 0, 1, 1⟩ ⟨5, none⟩
          (fun _ _ n => List.range n) (fun _ _ n => (List.range n).reverse) 3).map
            SamplerState.shard) :=
  ⟨Or.inr rfl, C2_determinism ⟨2, true, none, true, true, 0, 1, 1⟩ ⟨5, none⟩
    (fun _ _ n => List.range n) (fun _ _ n => List.range n)
    (fun _ _ n => (List.range n).reverse) (Or.inr rfl) 3⟩

/-- C2 counterexample: identical configuration with `sync_seed_schedule =
false` and `shuffle = true` (L = 2, B = 1, W = 1); the two runs draw
different — individually legitimate — entropy permutations, and one reset
later the shard sequences differ: `[[0], [1]]` against `[[1], [0]]`. -/
theorem C2_cex :
    ((fun _ _ n => List.range n : Nat → Nat → Nat → List Nat) 0 0 2).Perm
        (List.range 2)
    ∧ ((fun _ c n => if c == 0 && n == 2 then [1, 0] else List.range n :
          Nat → Nat → Nat → List Nat) 0 0 2).Perm (List.range 2)
    ∧ ((fun _ c n => if c == 0 && n == 2 then [1, 0] else List.range n :
          Nat → Nat → Nat → List Nat) 0 1 2).Perm (List.range 2)
    ∧ (runResets ⟨1, true, none, true, false, 0, 1, 1⟩ ⟨2, none⟩
        (fun _ _ n => List.range n) (fun _ _ n => List.range n) 1).map
          SamplerState.shard = Except.ok (some [[0], [1]])
    ∧ (runResets ⟨1, true, none, true, false, 0, 1, 1⟩ ⟨2, none⟩
        (fun _ _ n => List.range n)
        (fun _ c n => if c == 0 && n == 2 then [1, 0] else List.range n) 1).map
          SamplerState.shard = Except.ok (some [[1], [0]]) := by
  refine ⟨by decide, by decide, by decide, ?_, ?_⟩
  · rfl
  · rfl

/-! ### Claim C4 -/

theorem validFam_reset_choice (cfg : SamplerConfig)
    (oracle : Nat → Nat → Nat → List Nat) (ent : Nat → Nat → List Nat) (e : Nat)
    (hor : ValidOracle oracle) (hent : ValidFam ent) :
    ValidFam (if !cfg.shuffle then fun _ n => List.range n
              else if cfg.syncSeedSchedule then oracle (e + cfg.initSeed)
              else ent) := by
  split
  · exact fun c n => List.Perm.refl _
  · split
    · exact hor _
    · exact hent

theorem slice_length {α : Type} {S : List α} {W nb r : Nat} (hS : S.length = W * nb)
    (hr : r < W) : ((S.drop (r * nb)).take nb).length = nb := by
  rw [List.length_take, List.length_drop, hS]
  have h1 : (r + 1) * nb ≤ W * nb := Nat.mul_le_mul_right nb hr
  rw [Nat.succ_mul] at h1
  generalize W * nb = T at h1 ⊢
  generalize r * nb = s at h1 ⊢
  omega

/-- C4: `pad_batch = true`, no bucketing: the pad appended by `reset` is a
prefix of the already-permuted index sequence, every batch of the
resulting shard has exactly `batch_size` entries, and an epoch's iteration
yields exactly `num_batches` batches, each of exactly `batch_size`
entries.  (`hpad` excludes the configurations where `pad > L` makes the
numpy reshape raise before any batch is produced.) -/
theorem C4_pad_true (cfg : SamplerConfig) (ds : Dataset)
    (oracle : Nat → Nat → Nat → List Nat) (ent : Nat → Nat → List Nat)
    (st : SamplerState)
    (hthr : cfg.aspectRatioThresholds = none) (hpb : cfg.padBatch = true)
    (hB : 0 < cfg.batchSize) (hW : 0 < cfg.worldSize)
    (hrank : cfg.rank < cfg.worldSize)
    (hor : ValidOracle oracle) (hent : ValidFam ent)
    (hpad : nbOf cfg ds.length * wholeBatchSize cfg - ds.length ≤ ds.length)
    (hsch : st.schedule = none ∨ st.schedule = some (nbSchedule cfg ds.length)) :
    (∀ p : Nat → Nat → List Nat, (p 0 ds.length).Perm (List.range ds.length) →
      ∃ base : List Int, base.Perm (arangeInt ds.length)
        ∧ nbStream cfg ds.length (nbOf cfg ds.length) p
            = base ++ base.take (nbOf cfg ds.length * wholeBatchSize cfg - ds.length))
    ∧ ∃ st', Sampler.reset cfg ds oracle ent st = Except.ok st'
        ∧ (∀ b ∈ st'.shard.getD [], b.length = cfg.batchSize)
        ∧ (collectNext cfg (nbOf cfg ds.length) st').length = nbOf cfg ds.length
        ∧ (∀ b ∈ collectNext cfg (nbOf cfg ds.length) st',
            b.length = cfg.batchSize) := by
  have hw : 0 < wholeBatchSize cfg := Nat.mul_pos hW hB
  constructor
  · intro p hp
    refine ⟨applyPerm (p 0 ds.length) (arangeInt ds.length) 0,
      nbStream_base_perm ds.length p hp, ?_⟩
    simp [nbStream, hpb]
  · set p := (if !cfg.shuffle then fun _ n => List.range n
      else if cfg.syncSeedSchedule then oracle (st.epoch + cfg.initSeed)
      else ent) with hpdef
    have hfam : ValidFam p := validFam_reset_choice cfg oracle ent st.epoch hor hent
    have hle : ds.length ≤ nbOf cfg ds.length * wholeBatchSize cfg :=
      le_ceilDiv_mul ds.length (wholeBatchSize cfg) hw
    have hlenStream : (nbStream cfg ds.length (nbOf cfg ds.length) p).length
        = nbOf cfg ds.length * wholeBatchSize cfg :=
      nbStream_length cfg ds.length (nbOf cfg ds.length) p (hfam 0 ds.length)
        hle (fun _ => hpad)
    have hSlen : (streamBatches cfg ds.length (nbOf cfg ds.length) p).length
        = cfg.worldSize * nbOf cfg ds.length :=
      streamBatches_length cfg ds.length (nbOf cfg ds.length) p hfam hB hlenStream
    refine ⟨_, reset_nonbucket cfg ds oracle ent st hthr hsch, ?_, ?_, ?_⟩
    · intro b hb
      simp only [Option.getD_some] at hb
      have hbS : b ∈ streamBatches cfg ds.length (nbOf cfg ds.length) p :=
        List.mem_of_mem_drop (List.mem_of_mem_take hb)
      exact streamBatches_row_length cfg ds.length (nbOf cfg ds.length) p hfam hB
        hlenStream b hbS
    · have hrows : (((streamBatches cfg ds.length (nbOf cfg ds.length) p).drop
          (cfg.rank * nbOf cfg ds.length)).take (nbOf cfg ds.length)).length
          = nbOf cfg ds.length := slice_length hSlen hrank
      rw [collectNext_spec cfg (nbSchedule cfg ds.length) _ hrows
        (nbOf cfg ds.length) 0 _ rfl rfl rfl (by simp [nbSchedule])]
      rw [List.length_map, List.drop_zero, List.length_take, hrows]
      simp
    · intro b hb
      have hrows : (((streamBatches cfg ds.length (nbOf cfg ds.length) p).drop
          (cfg.rank * nbOf cfg ds.length)).take (nbOf cfg ds.length)).length
          = nbOf cfg ds.length := slice_length hSlen hrank
      rw [collectNext_spec cfg (nbSchedule cfg ds.length) _ hrows
        (nbOf cfg ds.length) 0 _ rfl rfl rfl (by simp [nbSchedule])] at hb
      simp only [hpb, if_true, List.drop_zero] at hb
      rcases List.mem_map.mp hb with ⟨r, hr, hrb⟩
      have hrS : r ∈ streamBatches cfg ds.length (nbOf cfg ds.length) p :=
        List.mem_of_mem_drop (List.mem_of_mem_take (List.mem_of_mem_take hr))
      rw [← hrb]
      exact streamBatches_row_length cfg ds.length (nbOf cfg ds.length) p hfam hB
        hlenStream r hrS

/-- C4 witness: L = 3, B = 2, W = 1, shuffling with synchronized seed and
the identity oracle: the pad is a prefix of the permuted sequence and both
yielded batches have exactly two entries. -/
theorem C4_witness :
    (0 < SamplerConfig.batchSize ⟨2, true, none, true, true, 0, 1, 1⟩)
    ∧ ((∀ p : Nat → Nat → List Nat, (p 0 3).Perm (List.range 3) →
        ∃ base : List Int, base.Perm (arangeInt 3)
          ∧ nbStream ⟨2, true, none, true, true, 0, 1, 1⟩ 3
              (nbOf ⟨2, true, none, true, true, 0, 1, 1⟩ 3) p
            = base ++ base.take (nbOf ⟨2, true, none, true, true, 0, 1, 1⟩ 3
                * wholeBatchSize ⟨2, true, none, true, true, 0, 1, 1⟩ - 3))
      ∧ ∃ st', Sampler.reset ⟨2, true, none, true, true, 0, 1, 1⟩ ⟨3, none⟩
            (fun _ _ n => List.range n) (fun _ n => List.range n) initialState
          = Except.ok st'
          ∧ (∀ b ∈ st'.shard.getD [],
              b.length = SamplerConfig.batchSize ⟨2, true, none, true, true, 0, 1, 1⟩)
          ∧ (collectNext ⟨2, true, none, true, true, 0, 1, 1⟩
              (nbOf ⟨2, true, none, true, true, 0, 1, 1⟩ 3) st').length
            = nbOf ⟨2, true, none, true, true, 0, 1, 1⟩ 3
          ∧ (∀ b ∈ collectNext ⟨2, true, none, true, true, 0, 1, 1⟩
              (nbOf ⟨2, true, none, true, true, 0, 1, 1⟩ 3) st',
              b.length = SamplerConfig.batchSize ⟨2, true, none, true, true, 0, 1, 1⟩)) :=
  ⟨by decide, C4_pad_true ⟨2, true, none, true, true, 0, 1, 1⟩ ⟨3, none⟩
    (fun _ _ n => List.range n) (fun _ n => List.range n) initialState
    rfl rfl (by decide) (by decide) (by decide)
    (fun _ _ n => List.Perm.refl _) (fun _ n => List.Perm.refl _)
    (by decide) (Or.inl rfl)⟩

/-! ### Claim C5 -/

theorem ceilDiv_pred_mul_lt (L B : Nat) (hL : 0 < L) (hB : 0 < B) :
    (ceilDiv L B - 1) * B < L := by
  have hdm := Nat.div_mul_le_self (L + B - 1) B
  unfold ceilDiv
  rw [Nat.sub_mul, Nat.one_mul]
  generalize hq : (L + B - 1) / B * B = t at hdm ⊢
  omega

theorem arangeInt_mem_ne_neg_one {L : Nat} {x : Int} (hx : x ∈ arangeInt L) :
    x ≠ -1 := by
  unfold arangeInt at hx
  rcases List.mem_map.mp hx with ⟨k, _, hk⟩
  rw [← hk]
  intro h
  have hk2 : (k : Int) = -1 := h
  omega

/-- C5 (amended): with `pad_batch = false` and no bucketing, no yielded
batch ever contains the `-1` sentinel and every yielded batch has at most
`batch_size` entries; the claim's ordering — all batches before the last
full, only the final one short — holds in the unshuffled single-process
case (`shuffle = false`, `world_size = 1`), where the sentinels stay in
the trailing batch. -/
theorem C5_pad_false (cfg : SamplerConfig) (ds : Dataset)
    (oracle : Nat → Nat → Nat → List Nat) (ent : Nat → Nat → List Nat)
    (st : SamplerState)
    (hthr : cfg.aspectRatioThresholds = none) (hpb : cfg.padBatch = false)
    (hB : 0 < cfg.batchSize) (hW : 0 < cfg.worldSize)
    (hrank : cfg.rank < cfg.worldSize)
    (hor : ValidOracle oracle) (hent : ValidFam ent)
    (hsch : st.schedule = none ∨ st.schedule = some (nbSchedule cfg ds.length)) :
    ∃ st', Sampler.reset cfg ds oracle ent st = Except.ok st'
      ∧ (∀ b ∈ collectNext cfg (nbOf cfg ds.length) st',
          (∀ x ∈ b, x ≠ -1) ∧ b.length ≤ cfg.batchSize)
      ∧ (cfg.shuffle = false → cfg.worldSize = 1 →
          ∀ i, i + 1 < nbOf cfg ds.length →
            ((collectNext cfg (nbOf cfg ds.length) st').getD i []).length
              = cfg.batchSize) := by
  have hw : 0 < wholeBatchSize cfg := Nat.mul_pos hW hB
  set p := (if !cfg.shuffle then fun _ n => List.range n
      else if cfg.syncSeedSchedule then oracle (st.epoch + cfg.initSeed)
      else ent) with hpdef
  have hfam : ValidFam p := validFam_reset_choice cfg oracle ent st.epoch hor hent
  have hle : ds.length ≤ nbOf cfg ds.length * wholeBatchSize cfg :=
    le_ceilDiv_mul ds.length (wholeBatchSize cfg) hw
  have hlenStream : (nbStream cfg ds.length (nbOf cfg ds.length) p).length
      = nbOf cfg ds.length * wholeBatchSize cfg :=
    nbStream_length cfg ds.length (nbOf cfg ds.length) p (hfam 0 ds.length)
      hle (fun h => absurd h (by rw [hpb]; exact Bool.false_ne_true))
  have hSlen : (streamBatches cfg ds.length (nbOf cfg ds.length) p).length
      = cfg.worldSize * nbOf cfg ds.length :=
    streamBatches_length cfg ds.length (nbOf cfg ds.length) p hfam hB hlenStream
  have hrows : (((streamBatches cfg ds.length (nbOf cfg ds.length) p).drop
      (cfg.rank * nbOf cfg ds.length)).take (nbOf cfg ds.length)).length
      = nbOf cfg ds.length := slice_length hSlen hrank
  refine ⟨_, reset_nonbucket cfg ds oracle ent st hthr hsch, ?_, ?_⟩
  · intro b hb
    rw [collectNext_spec cfg (nbSchedule cfg ds.length) _ hrows
      (nbOf cfg ds.length) 0 _ rfl rfl rfl (by simp [nbSchedule])] at hb
    simp only [hpb, Bool.false_eq_true, if_false, List.drop_zero] at hb
    rcases List.mem_map.mp hb with ⟨r, hr, hrb⟩
    have hrS : r ∈ streamBatches cfg ds.length (nbOf cfg ds.length) p :=
      List.mem_of_mem_drop (List.mem_of_mem_take (List.mem_of_mem_take hr))
    constructor
    · intro x hx
      rw [← hrb] at hx
      exact bne_iff_ne.mp (List.mem_filter.mp hx).2
    · rw [← hrb]
      calc (r.filter (fun v => v != -1)).length
          ≤ r.length := List.length_filter_le _ _
        _ = cfg.batchSize := streamBatches_row_length cfg ds.length
            (nbOf cfg ds.length) p hfam hB hlenStream r hrS
  · intro hsh hW1 i hi
    have hL : 0 < ds.length := by
      rcases Nat.eq_zero_or_pos ds.length with h0 | hL
      · exfalso
        have hz : nbOf cfg ds.length = 0 := by
          rw [h0]
          unfold nbOf ceilDiv
          rw [Nat.zero_add]
          exact Nat.div_eq_of_lt (by omega)
        omega
      · exact hL
    have hpid : p = fun _ n => List.range n := by
      rw [hpdef, hsh]
      rfl
    have hwhole : wholeBatchSize cfg = cfg.batchSize := by
      unfold wholeBatchSize
      rw [hW1, Nat.one_mul]
    have hbase : applyPerm (List.range ds.length) (arangeInt ds.length) 0
        = arangeInt ds.length := by
      have h := applyPerm_id (arangeInt ds.length) 0
      rwa [arangeInt_length] at h
    have hstream : nbStream cfg ds.length (nbOf cfg ds.length) p
        = arangeInt ds.length
          ++ List.replicate (nbOf cfg ds.length * wholeBatchSize cfg - ds.length)
            (-1) := by
      rw [hpid]
      simp only [nbStream, hpb, Bool.false_eq_true, if_false]
      rw [hbase]
    have hcount : ceilDiv (nbStream cfg ds.length (nbOf cfg ds.length) p).length
        cfg.batchSize = nbOf cfg ds.length := by
      rw [hlenStream, hwhole, ceilDiv_mul_self _ _ hB]
    have hSB : streamBatches cfg ds.length (nbOf cfg ds.length) p
        = chunksOf cfg.batchSize (nbStream cfg ds.length (nbOf cfg ds.length) p) := by
      simp only [streamBatches]
      rw [hpid]
      exact applyPerm_id _ _
    have hSB2 : chunksOf cfg.batchSize (nbStream cfg ds.length (nbOf cfg ds.length) p)
        = chunkGo cfg.batchSize (nbOf cfg ds.length)
          (nbStream cfg ds.length (nbOf cfg ds.length) p) := by
      unfold chunksOf
      rw [hcount]
    have hr0 : cfg.rank = 0 := Nat.lt_one_iff.mp (hW1 ▸ hrank)
    have hSlen1 : (streamBatches cfg ds.length (nbOf cfg ds.length) p).length
        = nbOf cfg ds.length := by
      rw [hSlen, hW1, Nat.one_mul]
    rw [collectNext_spec cfg (nbSchedule cfg ds.length) _ hrows
      (nbOf cfg ds.length) 0 _ rfl rfl rfl (by simp [nbSchedule])]
    simp only [hpb, Bool.false_eq_true, if_false, List.drop_zero]
    rw [hr0, Nat.zero_mul, List.drop_zero,
      List.take_of_length_le (Nat.le_of_eq hSlen1),
      List.take_of_length_le (Nat.le_of_eq hSlen1)]
    rw [getD_map_lt [] [] (by rw [hSlen1]; omega)]
    rw [hSB, hSB2, chunkGo_getD cfg.batchSize (nbOf cfg ds.length) i _ (by omega)]
    have hi1 : (i + 1) * cfg.batchSize ≤ ds.length := by
      have h1 : i + 1 ≤ nbOf cfg ds.length - 1 := by omega
      have h2 : (i + 1) * cfg.batchSize
          ≤ (nbOf cfg ds.length - 1) * cfg.batchSize :=
        Nat.mul_le_mul_right _ h1
      have h3 := ceilDiv_pred_mul_lt ds.length cfg.batchSize hL hB
      have h4 : nbOf cfg ds.length = ceilDiv ds.length cfg.batchSize := by
        unfold nbOf
        rw [hwhole]
      rw [← h4] at h3
      omega
    have hiB : i * cfg.batchSize ≤ ds.length :=
      Nat.le_trans (Nat.mul_le_mul_right _ (Nat.le_succ i)) hi1
    have hdrop : (nbStream cfg ds.length (nbOf cfg ds.length) p).drop
        (i * cfg.batchSize)
        = (arangeInt ds.length).drop (i * cfg.batchSize)
          ++ List.replicate (nbOf cfg ds.length * wholeBatchSize cfg - ds.length)
            (-1) := by
      rw [hstream, List.drop_append_of_le_length]
      rw [arangeInt_length]
      exact hiB
    have htake : ((nbStream cfg ds.length (nbOf cfg ds.length) p).drop
        (i * cfg.batchSize)).take cfg.batchSize
        = ((arangeInt ds.length).drop (i * cfg.batchSize)).take cfg.batchSize := by
      rw [hdrop, List.take_append_of_le_length]
      rw [List.length_drop, arangeInt_length]
      rw [Nat.succ_mul] at hi1
      omega
    rw [htake]
    have hmem : ∀ x ∈ ((arangeInt ds.length).drop (i * cfg.batchSize)).take
        cfg.batchSize, (x != -1) = true := by
      intro x hx
      exact bne_iff_ne.mpr (arangeInt_mem_ne_neg_one
        (List.mem_of_mem_drop (List.mem_of_mem_take hx)))
    rw [List.filter_eq_self.mpr hmem]
    rw [List.length_take, List.length_drop, arangeInt_length]
    rw [Nat.succ_mul] at hi1
    omega

/-- C5 witness: L = 3, B = 2, W = 1, `shuffle = false`, `pad_batch =
false`: every yielded batch is sentinel-free with at most 2 entries, and
the single batch before the last is full. -/
theorem C5_witness :
    (SamplerConfig.padBatch ⟨2, false, none, false, true, 0, 1, 1⟩ = false)
    ∧ ∃ st', Sampler.reset ⟨2, false, none, false, true, 0, 1, 1⟩ ⟨3, none⟩
          (fun _ _ n => List.range n) (fun _ n => List.range n) initialState
        = Except.ok st'
      ∧ (∀ b ∈ collectNext ⟨2, false, none, false, true, 0, 1, 1⟩
            (nbOf ⟨2, false, none, false, true, 0, 1, 1⟩ 3) st',
          (∀ x ∈ b, x ≠ -1)
            ∧ b.length ≤ SamplerConfig.batchSize ⟨2, false, none, false, true, 0, 1, 1⟩)
      ∧ (SamplerConfig.shuffle ⟨2, false, none, false, true, 0, 1, 1⟩ = false →
          SamplerConfig.worldSize ⟨2, false, none, false, true, 0, 1, 1⟩ = 1 →
          ∀ i, i + 1 < nbOf ⟨2, false, none, false, true, 0, 1, 1⟩ 3 →
            ((collectNext ⟨2, false, none, false, true, 0, 1, 1⟩
                (nbOf ⟨2, false, none, false, true, 0, 1, 1⟩ 3) st').getD i []).length
              = SamplerConfig.batchSize ⟨2, false, none, false, true, 0, 1, 1⟩) :=
  ⟨rfl, C5_pad_false ⟨2, false, none, false, true, 0, 1, 1⟩ ⟨3, none⟩
    (fun _ _ n => List.range n) (fun _ n => List.range n) initialState
    rfl rfl (by decide) (by decide) (by decide)
    (fun _ _ n => List.Perm.refl _) (fun _ n => List.Perm.refl _) (Or.inl rfl)⟩

/-- The C5 counterexample shard: L = 5, B = 2, W = 2, rank 1,
`shuffle = false`, `pad_batch = false`: the sentinel padding spills into
both batches of rank 1's shard. -/
def c5CexState : SamplerState :=
  (Sampler.reset ⟨2, false, none, false, true, 1, 2, 1⟩ ⟨5, none⟩
    (fun _ _ n => List.range n) (fun _ n => List.range n)
    initialState).toOption.getD initialState

/-- C5 counterexample: rank 1 yields `[4]` and then `[]` — the FIRST of
its two batches has 1 element, not `batch_size = 2`, although it is not
the final batch; sentinels spread over several trailing batches of the
global stream, which land at the start of the last rank's shard. -/
theorem C5_cex :
    nbOf ⟨2, false, none, false, true, 1, 2, 1⟩ 5 = 2
    ∧ collectNext ⟨2, false, none, false, true, 1, 2, 1⟩ 2 c5CexState = [[4], []]
    ∧ ((collectNext ⟨2, false, none, false, true, 1, 2, 1⟩ 2 c5CexState).getD 0
        []).length = 1 :=
  ⟨rfl, rfl, rfl⟩

/-! ### Claim C1 -/

/-- C1 (amended): with synchronized seeding and shuffling on, two sampler
instances differing only in rank, driven through the same `e + 1` resets,
derive their epoch-`e` shards as rank-indexed contiguous slices of one
common batch-shuffled stream — independently of each process's local
entropy; concatenating the slices of all ranks in rank order reconstructs
that full padded, batch-shuffled stream exactly.  The shards are disjoint
as index sets whenever `W*B` divides `L` (with padding the claimed
disjointness fails: pad duplicates make ranks share indices, see the
counterexample). -/
theorem C1_sync_partition (cfg : SamplerConfig) (ds : Dataset)
    (oracle : Nat → Nat → Nat → List Nat) (entA entB : Nat → Nat → Nat → List Nat)
    (e rA rB : Nat)
    (hthr : cfg.aspectRatioThresholds = none)
    (hsh : cfg.shuffle = true) (hsync : cfg.syncSeedSchedule = true)
    (hB : 0 < cfg.batchSize) (hW : 0 < cfg.worldSize)
    (hrA : rA < cfg.worldSize) (hrB : rB < cfg.worldSize) (hne : rA ≠ rB)
    (hor : ValidOracle oracle)
    (hpad : cfg.padBatch = true →
      nbOf cfg ds.length * wholeBatchSize cfg - ds.length ≤ ds.length) :
    runResets { cfg with rank := rA } ds oracle entA (e + 1) = Except.ok
      { epoch := e + 1, schedule := some (nbSchedule cfg ds.length),
        shard := some (((streamBatches cfg ds.length (nbOf cfg ds.length)
            (oracle (e + cfg.initSeed))).drop (rA * nbOf cfg ds.length)).take
            (nbOf cfg ds.length)),
        step := 0 }
    ∧ runResets { cfg with rank := rB } ds oracle entB (e + 1) = Except.ok
      { epoch := e + 1, schedule := some (nbSchedule cfg ds.length),
        shard := some (((streamBatches cfg ds.length (nbOf cfg ds.length)
            (oracle (e + cfg.initSeed))).drop (rB * nbOf cfg ds.length)).take
            (nbOf cfg ds.length)),
        step := 0 }
    ∧ ((List.range cfg.worldSize).map (fun r =>
        ((streamBatches cfg ds.length (nbOf cfg ds.length)
          (oracle (e + cfg.initSeed))).drop (r * nbOf cfg ds.length)).take
          (nbOf cfg ds.length))).flatten
      = streamBatches cfg ds.length (nbOf cfg ds.length) (oracle (e + cfg.initSeed))
    ∧ (wholeBatchSize cfg ∣ ds.length →
        ∀ x ∈ (((streamBatches cfg ds.length (nbOf cfg ds.length)
            (oracle (e + cfg.initSeed))).drop (rA * nbOf cfg ds.length)).take
            (nbOf cfg ds.length)).flatten,
          x ∉ (((streamBatches cfg ds.length (nbOf cfg ds.length)
            (oracle (e + cfg.initSeed))).drop (rB * nbOf cfg ds.length)).take
            (nbOf cfg ds.length)).flatten) := by
  have hw : 0 < wholeBatchSize cfg := Nat.mul_pos hW hB
  have hfam : ValidFam (oracle (e + cfg.initSeed)) := hor (e + cfg.initSeed)
  have hle : ds.length ≤ nbOf cfg ds.length * wholeBatchSize cfg :=
    le_ceilDiv_mul ds.length (wholeBatchSize cfg) hw
  have hlenStream : (nbStream cfg ds.length (nbOf cfg ds.length)
      (oracle (e + cfg.initSeed))).length
      = nbOf cfg ds.length * wholeBatchSize cfg :=
    nbStream_length cfg ds.length (nbOf cfg ds.length) (oracle (e + cfg.initSeed))
      (hfam 0 ds.length) hle hpad
  have hSlen : (streamBatches cfg ds.length (nbOf cfg ds.length)
      (oracle (e + cfg.initSeed))).length
      = cfg.worldSize * nbOf cfg ds.length :=
    streamBatches_length cfg ds.length (nbOf cfg ds.length)
      (oracle (e + cfg.initSeed)) hfam hB hlenStream
  refine ⟨?_, ?_, ?_, ?_⟩
  · exact runResets_sync { cfg with rank := rA } ds oracle entA hthr hsh hsync e
  · exact runResets_sync { cfg with rank := rB } ds oracle entB hthr hsh hsync e
  · exact flatten_slices (nbOf cfg ds.length) cfg.worldSize _ hSlen
  · intro hdvd x hx hx'
    have hex : nbOf cfg ds.length * wholeBatchSize cfg = ds.length :=
      ceilDiv_of_dvd hw hdvd
    have hndStream : (nbStream cfg ds.length (nbOf cfg ds.length)
        (oracle (e + cfg.initSeed))).Nodup :=
      nbStream_nodup_of_exact cfg ds.length (nbOf cfg ds.length)
        (oracle (e + cfg.initSeed)) (hfam 0 ds.length) hex
    have hperm := streamBatches_flatten_perm cfg ds.length (nbOf cfg ds.length)
      (oracle (e + cfg.initSeed)) hfam hB
    have hnd : (streamBatches cfg ds.length (nbOf cfg ds.length)
        (oracle (e + cfg.initSeed))).flatten.Nodup :=
      hperm.nodup_iff.mpr hndStream
    rcases Nat.lt_or_ge rA rB with hlt | hge
    · exact slices_flatten_disjoint hnd hlt x hx hx'
    · have hlt : rB < rA := Nat.lt_of_le_of_ne hge (fun hh => hne hh.symm)
      exact slices_flatten_disjoint hnd hlt x hx' hx

/-- C1 witness: L = 4, B = 1, W = 2, ranks 0 and 1, identity oracle, first
epoch: both runs succeed, the two shards are the two halves of the common
batch-shuffled stream, concatenation over ranks reconstructs it, and
(since 2 divides 4, no padding) the shards are disjoint index sets. -/
theorem C1_witness :
    (0 < SamplerConfig.batchSize ⟨1, true, none, true, true, 0, 2, 1⟩)
    ∧ (runResets { SamplerConfig.mk 1 true none true true 0 2 1 with rank := 0 }
          ⟨4, none⟩ (fun _ _ n => List.range n) (fun _ _ n => List.range n) (0 + 1)
        = Except.ok
          { epoch := 0 + 1,
            schedule := some (nbSchedule ⟨1, true, none, true, true, 0, 2, 1⟩ 4),
            shard := some (((streamBatches ⟨1, true, none, true, true, 0, 2, 1⟩ 4
                (nbOf ⟨1, true, none, true, true, 0, 2, 1⟩ 4)
                ((fun _ _ n => List.range n) (0 + 1))).drop
                  (0 * nbOf ⟨1, true, none, true, true, 0, 2, 1⟩ 4)).take
                (nbOf ⟨1, true, none, true, true, 0, 2, 1⟩ 4)),
            step := 0 }
      ∧ runResets { SamplerConfig.mk 1 true none true true 0 2 1 with rank := 1 }
          ⟨4, none⟩ (fun _ _ n => List.range n) (fun _ _ n => List.range n) (0 + 1)
        = Except.ok
          { epoch := 0 + 1,
            schedule := some (nbSchedule ⟨1, true, none, true, true, 0, 2, 1⟩ 4),
            shard := some (((streamBatches ⟨1, true, none, true, true, 0, 2, 1⟩ 4
                (nbOf ⟨1, true, none, true, true, 0, 2, 1⟩ 4)
                ((fun _ _ n => List.range n) (0 + 1))).drop
                  (1 * nbOf ⟨1, true, none, true, true, 0, 2, 1⟩ 4)).take
                (nbOf ⟨1, true, none, true, true, 0, 2, 1⟩ 4)),
            step := 0 }
      ∧ ((List.range (SamplerConfig.worldSize ⟨1, true, none, true, true, 0, 2, 1⟩)).map
          (fun r => ((streamBatches ⟨1, true, none, true, true, 0, 2, 1⟩ 4
              (nbOf ⟨1, true, none, true, true, 0, 2, 1⟩ 4)
              ((fun _ _ n => List.range n) (0 + 1))).drop
                (r * nbOf ⟨1, true, none, true, true, 0, 2, 1⟩ 4)).take
              (nbOf ⟨1, true, none, true, true, 0, 2, 1⟩ 4))).flatten
        = streamBatches ⟨1, true, none, true, true, 0, 2, 1⟩ 4
            (nbOf ⟨1, true, none, true, true, 0, 2, 1⟩ 4)
            ((fun _ _ n => List.range n) (0 + 1))
      ∧ (wholeBatchSize ⟨1, true, none, true, true, 0, 2, 1⟩ ∣ 4 →
          ∀ x ∈ (((streamBatches ⟨1, true, none, true, true, 0, 2, 1⟩ 4
              (nbOf ⟨1, true, none, true, true, 0, 2, 1⟩ 4)
              ((fun _ _ n => List.range n) (0 + 1))).drop
                (0 * nbOf ⟨1, true, none, true, true, 0, 2, 1⟩ 4)).take
              (nbOf ⟨1, true, none, true, true, 0, 2, 1⟩ 4)).flatten,
            x ∉ (((streamBatches ⟨1, true, none, true, true, 0, 2, 1⟩ 4
              (nbOf ⟨1, true, none, true, true, 0, 2, 1⟩ 4)
              ((fun _ _ n => List.range n) (0 + 1))).drop
                (1 * nbOf ⟨1, true, none, true, true, 0, 2, 1⟩ 4)).take
              (nbOf ⟨1, true, none, true, true, 0, 2, 1⟩ 4)).flatten)) :=
  ⟨by decide, C1_sync_partition ⟨1, true, none, true, true, 0, 2, 1⟩ ⟨4, none⟩
    (fun _ _ n => List.range n) (fun _ _ n => List.range n)
    (fun _ _ n => List.range n) 0 0 1 rfl rfl rfl (by decide) (by decide)
    (by decide) (by decide) (by decide) (fun _ _ n => List.Perm.refl _)
    (fun _ => by decide)⟩

/-- The C1 counterexample: L = 1, B = 1, W = 2, `pad_batch = true`,
synchronized shuffling.  Padding duplicates index 0, and each rank's
one-batch shard is `[[0]]`. -/
def c1ShardAt (r : Nat) : List (List Int) :=
  ((runResets { SamplerConfig.mk 1 true none true true 0 2 1 with rank := r }
    ⟨1, none⟩ (fun _ _ n => List.range n) (fun _ _ n => List.range n)
    1).toOption.getD initialState).shard.getD []

/-- C1 counterexample: with padding (L = 1 padded to 2), both ranks' epoch-0
shards carry index 0 — `0 ∈` both flattened shards — so the shards are NOT
disjoint as index sets, against the claim.  (For L = 1 every choice of
permutation oracle produces these same shards: permuting one item, then
two equal batches, changes nothing.) -/
theorem C1_cex :
    c1ShardAt 0 = [[0]] ∧ c1ShardAt 1 = [[0]]
    ∧ (0 : Int) ∈ (c1ShardAt 0).flatten ∧ (0 : Int) ∈ (c1ShardAt 1).flatten :=
  ⟨rfl, rfl, by decide, by decide⟩
